import Mathlib

/-!
Verification of the c19 default state engine and connection layer
(`src/state/default.rs`, `src/connection/default.rs`) against its
natural-language specification. The Rust code is shallowly embedded:
the persistent `im::HashMap` storage is modelled as an association list,
machine `u64` arithmetic as `Nat` reduced modulo `2 ^ 64`, and the
`XxHash64` hasher used for versioning is implemented in full.
-/

set_option maxRecDepth 100000

namespace C19

/-! ### 64-bit arithmetic helpers -/

/-- Modulus of 64-bit machine arithmetic, `2 ^ 64`. -/
def w64 : Nat := 18446744073709551616

/-- Rotate a 64-bit word left by `n` bits (for `0 < n < 64`). -/
def rotl64 (x n : Nat) : Nat :=
  (x % w64) * 2 ^ n % w64 + x % w64 / 2 ^ (64 - n)

/-- Bitwise XOR of the low `fuel` bits of two naturals, by structural
recursion (the kernel reduces it directly, unlike `Nat.xor`). -/
def xorBits : Nat → Nat → Nat → Nat
  | 0, _, _ => 0
  | fuel + 1, a, b => (a + b) % 2 + 2 * xorBits fuel (a / 2) (b / 2)

/-- XOR on 64-bit machine words, the Rust `u64` `^` operator. -/
def xor64 (a b : Nat) : Nat := xorBits 64 a b

/-! ### XxHash64 (twox-hash `XxHash64`, seed 0, as used by `hash` in
`src/state/default.rs`) -/

/-- First XXH64 prime. -/
def xxPrime1 : Nat := 0x9E3779B185EBCA87
/-- Second XXH64 prime. -/
def xxPrime2 : Nat := 0xC2B2AE3D27D4EB4F
/-- Third XXH64 prime. -/
def xxPrime3 : Nat := 0x165667B19E3779F9
/-- Fourth XXH64 prime. -/
def xxPrime4 : Nat := 0x85EBCA77C2B2AE63
/-- Fifth XXH64 prime. -/
def xxPrime5 : Nat := 0x27D4EB2F165667C5

/-- One accumulator round of XXH64. -/
def xxRound (acc lane : Nat) : Nat :=
  rotl64 ((acc + lane * xxPrime2) % w64) 31 * xxPrime1 % w64

/-- Merge one stripe accumulator into the final accumulator. -/
def xxMergeRound (acc accN : Nat) : Nat :=
  (xor64 acc (xxRound 0 accN) * xxPrime1 + xxPrime4) % w64

/-- Read a little-endian unsigned integer from a byte list. -/
def readLE (bs : List Nat) : Nat := bs.foldr (fun b acc => acc * 256 + b) 0

/-- Process 32-byte stripes of the input through the four accumulators
(structural recursion: a stripe is matched as 32 explicit bytes so that
the kernel can reduce applications directly). -/
def xxStripes : Nat → Nat → Nat → Nat → List Nat →
    Nat × Nat × Nat × Nat × List Nat
  | v1, v2, v3, v4,
    a0 :: a1 :: a2 :: a3 :: a4 :: a5 :: a6 :: a7 ::
    b0 :: b1 :: b2 :: b3 :: b4 :: b5 :: b6 :: b7 ::
    c0 :: c1 :: c2 :: c3 :: c4 :: c5 :: c6 :: c7 ::
    d0 :: d1 :: d2 :: d3 :: d4 :: d5 :: d6 :: d7 :: rest =>
      xxStripes (xxRound v1 (readLE [a0, a1, a2, a3, a4, a5, a6, a7]))
                (xxRound v2 (readLE [b0, b1, b2, b3, b4, b5, b6, b7]))
                (xxRound v3 (readLE [c0, c1, c2, c3, c4, c5, c6, c7]))
                (xxRound v4 (readLE [d0, d1, d2, d3, d4, d5, d6, d7])) rest
  | v1, v2, v3, v4, bs => (v1, v2, v3, v4, bs)

/-- Consume remaining 8-byte lanes of the tail (structural recursion). -/
def xxTail8 : Nat → List Nat → Nat × List Nat
  | acc, a0 :: a1 :: a2 :: a3 :: a4 :: a5 :: a6 :: a7 :: rest =>
      xxTail8 ((rotl64 (xor64 acc (xxRound 0
                  (readLE [a0, a1, a2, a3, a4, a5, a6, a7]))) 27 * xxPrime1
                + xxPrime4) % w64) rest
  | acc, bs => (acc, bs)

/-- Consume one remaining 4-byte lane of the tail, if present. -/
def xxTail4 (acc : Nat) (bs : List Nat) : Nat × List Nat :=
  if 4 ≤ bs.length then
    (rotl64 (xor64 acc (readLE (bs.take 4) * xxPrime1 % w64)) 23 * xxPrime2 % w64
       |> fun a => (a + xxPrime3) % w64, bs.drop 4)
  else (acc, bs)

/-- Consume the remaining single bytes of the tail. -/
def xxBytes (acc : Nat) (bs : List Nat) : Nat :=
  bs.foldl (fun a b => rotl64 (xor64 a (b * xxPrime5 % w64)) 11 * xxPrime1 % w64)
    acc

/-- Final avalanche mix of XXH64. -/
def xxAvalanche (acc : Nat) : Nat :=
  let a := acc % w64
  let a := xor64 a (a / 2 ^ 33) * xxPrime2 % w64
  let a := xor64 a (a / 2 ^ 29) * xxPrime3 % w64
  xor64 a (a / 2 ^ 32)

/-- XXH64 of a byte sequence with the given seed. This models the
`twox_hash::XxHash64` hasher fed with the same byte stream. -/
def xxh64 (seed : Nat) (input : List Nat) : Nat :=
  let len := input.length
  let state :=
    if 32 ≤ len then
      let r := xxStripes ((seed + xxPrime1 + xxPrime2) % w64)
                         ((seed + xxPrime2) % w64)
                         (seed % w64)
                         ((seed + w64 - xxPrime1 % w64) % w64) input
      let v1 := r.1
      let v2 := r.2.1
      let v3 := r.2.2.1
      let v4 := r.2.2.2.1
      let acc := (rotl64 v1 1 + rotl64 v2 7 + rotl64 v3 12 + rotl64 v4 18) % w64
      let acc := xxMergeRound acc v1
      let acc := xxMergeRound acc v2
      let acc := xxMergeRound acc v3
      let acc := xxMergeRound acc v4
      (acc, r.2.2.2.2)
    else ((seed + xxPrime5) % w64, input)
  let acc := (state.1 + len) % w64
  let t8 := xxTail8 acc state.2
  let t4 := xxTail4 t8.1 t8.2
  xxAvalanche (xxBytes t4.1 t4.2)

/-! ### Byte encodings fed to the hasher -/

/-- UTF-8 encoding of a single Unicode code point. -/
def utf8EncChar (c : Nat) : List Nat :=
  if c < 0x80 then [c]
  else if c < 0x800 then
    [0xC0 + c / 64, 0x80 + c % 64]
  else if c < 0x10000 then
    [0xE0 + c / 4096, 0x80 + c / 64 % 64, 0x80 + c % 64]
  else
    [0xF0 + c / 262144, 0x80 + c / 4096 % 64, 0x80 + c / 64 % 64, 0x80 + c % 64]

/-- UTF-8 bytes of a string, as produced by Rust `str::as_bytes`. -/
def strBytes (s : String) : List Nat :=
  (s.data.map (fun c => utf8EncChar c.toNat)).flatten

/-- Little-endian byte encoding of a `u64` (Rust `u64::to_ne_bytes` on the
little-endian targets the crate runs on). -/
def u64LEBytes (n : Nat) : List Nat :=
  [n % 256, n / 256 % 256, n / 65536 % 256, n / 16777216 % 256,
   n / 4294967296 % 256, n / 1099511627776 % 256,
   n / 281474976710656 % 256, n / 72057594037927936 % 256]

/-- Hash of one `(key, ts)` pair, as computed inside `hash` in
`src/state/default.rs`: a fresh `XxHash64::default()` (seed 0) is fed the
key's UTF-8 bytes, the `0xFF` terminator Rust's `Hash for str` appends, and
the eight native-endian bytes of `ts`, then finished. -/
def hashKV (k : String) (ts : Nat) : Nat :=
  xxh64 0 (strBytes k ++ [0xFF] ++ u64LEBytes (ts % w64))

/-! ### Data model (`Value`, storage) from `src/state/default.rs` -/

/-- Embeds `struct Value` of `src/state/default.rs`: a JSON payload
(abstracted as the type parameter `α`, since none of the state engine's
logic inspects it), a creation timestamp `ts`, and an optional TTL that the
engine resolves against `ts`. -/
structure Value (α : Type) where
  value : α
  ts : Nat
  ttl : Option Nat
  deriving DecidableEq, Repr

/-- Embeds the `im::hashmap::HashMap<String, Box<Value>>` backing store as an
association list; the real map's keys are unique, which theorems track with a
`Nodup` hypothesis on `keys` where it matters. -/
abbrev Storage (α : Type) := List (String × Value α)

/-- Key list of a storage. -/
def keys {α : Type} (s : Storage α) : List String := s.map Prod.fst

/-- Lookup in a storage, first match wins (models `HashMap::get`). -/
def getVal {α : Type} (k : String) : Storage α → Option (Value α)
  | [] => none
  | (k', v) :: rest => if k' = k then some v else getVal k rest

/-- Replace the value stored under a key, first match only (models the
`and_modify` arm of `HashMap::entry`). -/
def replaceVal {α : Type} (k : String) (w : Value α) : Storage α → Storage α
  | [] => []
  | (k', v) :: rest =>
      if k' = k then (k', w) :: rest else (k', v) :: replaceVal k w rest

/-- Embeds `Value::is_expired`: true when a `ttl` is present and
`ttl + ts < epoch()`; the current wall clock `epoch()` is passed in as
`now`. -/
def isExpired {α : Type} (now : Nat) (v : Value α) : Bool :=
  match v.ttl with
  | some ttl => decide (ttl + v.ts < now)
  | none => false

/-- Embeds the TTL-default substitution of `Default::set`:
`if self.ttl.is_some() && right.ttl.is_none() { right.ttl = self.ttl; }`. -/
def withDefaultTtl {α : Type} (defaultTtl : Option Nat) (v : Value α) : Value α :=
  if defaultTtl.isSome && v.ttl.isNone then { v with ttl := defaultTtl } else v

/-- Embeds `fn hash` of `src/state/default.rs`: XOR of `XxHash64(key, ts)`
over all entries of the storage (no expiry filter), starting from 0. -/
def hash {α : Type} (s : Storage α) : Nat :=
  s.foldl (fun h kv => xor64 h (hashKV kv.1 kv.2.ts)) 0

/-- One iteration of the merge loop in `Default::set`: skip the incoming
entry if it is already expired, substitute the engine's default TTL, then
replace the stored entry only when it carries a strictly smaller `ts`
(`and_modify`) or insert when the key is absent (`or_insert`). The boolean
is the local `is_dirty` flag of that function: the `or_insert` argument
block `{ is_dirty = true; right.into() }` is a plain Rust function
argument and is evaluated eagerly, before the entry dispatch, so every
non-expired incoming entry sets the flag to `true` whichever arm is taken;
only entries skipped by the expiry `continue` leave it untouched. -/
def mergeEntry {α : Type} (defaultTtl : Option Nat) (now : Nat)
    (acc : Storage α × Bool) (kv : String × Value α) : Storage α × Bool :=
  let storage := acc.1
  let dirty := acc.2
  let key := kv.1
  if isExpired now kv.2 then (storage, dirty)
  else
    let right := withDefaultTtl defaultTtl kv.2
    match getVal key storage with
    | some v =>
        if v.ts < right.ts then (replaceVal key right storage, true)
        else (storage, true)
    | none => (storage ++ [(key, right)], true)

/-- Embeds the private `fn set(&self, map)` merge of `src/state/default.rs`:
fold `mergeEntry` over the incoming map, with the local dirty flag starting
at `false`. The returned boolean is the value that the function stores into
`self.is_dirty` (note: it overwrites, it does not OR). -/
def mergeSet {α : Type} (defaultTtl : Option Nat) (now : Nat)
    (storage : Storage α) (incoming : List (String × Value α)) :
    Storage α × Bool :=
  incoming.foldl (mergeEntry defaultTtl now) (storage, false)

/-- Embeds the observable fields of `struct Default`: the storage, the
cached `version` string, the `is_dirty` flag and the configured default
`ttl`. -/
structure St (α : Type) where
  storage : Storage α
  version : String
  isDirty : Bool
  ttl : Option Nat
  deriving DecidableEq, Repr

/-- Embeds `std::default::Default for Default`: empty storage, empty cached
version string, dirty flag cleared. -/
def St.start {α : Type} (ttl : Option Nat) : St α :=
  { storage := [], version := "", isDirty := false, ttl := ttl }

/-- Applies one drained ingest payload to the state: runs the `mergeSet`
merge and stores the resulting local dirty flag into `is_dirty`, exactly as
`*self.is_dirty.write().unwrap() = is_dirty;` does. -/
def stSet {α : Type} (now : Nat) (st : St α)
    (incoming : List (String × Value α)) : St α :=
  let r := mergeSet st.ttl now st.storage incoming
  { st with storage := r.1, isDirty := r.2 }

/-- Embeds `fn version` of the `State` impl: when dirty, recompute the
version as the decimal rendering of `hash(storage)` and clear the flag;
otherwise return the cached string. Returns the string together with the
updated state. -/
def stVersion {α : Type} (st : St α) : String × St α :=
  if st.isDirty then
    (toString (hash st.storage),
     { st with version := toString (hash st.storage), isDirty := false })
  else (st.version, st)

/-- Embeds `fn get_root`: clones the backing storage verbatim (no expiry
filter) and wraps it in `Some`. -/
def get_root {α : Type} (st : St α) : Option (Storage α) := some st.storage

/-- Embeds `fn purge`: retain only unexpired entries. -/
def purge {α : Type} (now : Nat) (s : Storage α) : Storage α :=
  s.filter (fun kv => !isExpired now kv.2)

/-! ### UTF-8 decoding (Rust `String::from_utf8` validation) and `get` -/

/-- Continuation-byte test of UTF-8. -/
def isCont (b : Nat) : Bool := 0x80 ≤ b && b ≤ 0xBF

/-- Decodes a byte list as UTF-8 into code points, following exactly the
validation Rust's `String::from_utf8` performs (shortest-form encodings
only, surrogates rejected, code points at most `0x10FFFF`); `none` means
the bytes are not valid UTF-8. -/
def utf8Decode : List Nat → Option (List Nat)
  | [] => some []
  | b :: bs =>
    if b ≤ 0x7F then (utf8Decode bs).map (b :: ·)
    else if 0xC2 ≤ b && b ≤ 0xDF then
      match bs with
      | b1 :: bs1 =>
        if isCont b1 then
          (utf8Decode bs1).map (((b - 0xC0) * 64 + (b1 - 0x80)) :: ·)
        else none
      | [] => none
    else if 0xE0 ≤ b && b ≤ 0xEF then
      match bs with
      | b1 :: b2 :: bs1 =>
        if (if b = 0xE0 then 0xA0 ≤ b1 && b1 ≤ 0xBF
            else if b = 0xED then 0x80 ≤ b1 && b1 ≤ 0x9F
            else isCont b1) && isCont b2 then
          (utf8Decode bs1).map
            (((b - 0xE0) * 4096 + (b1 - 0x80) * 64 + (b2 - 0x80)) :: ·)
        else none
      | _ => none
    else if 0xF0 ≤ b && b ≤ 0xF4 then
      match bs with
      | b1 :: b2 :: b3 :: bs1 =>
        if (if b = 0xF0 then 0x90 ≤ b1 && b1 ≤ 0xBF
            else if b = 0xF4 then 0x80 ≤ b1 && b1 ≤ 0x8F
            else isCont b1) && isCont b2 && isCont b3 then
          (utf8Decode bs1).map
            (((b - 0xF0) * 262144 + (b1 - 0x80) * 4096
              + (b2 - 0x80) * 64 + (b3 - 0x80)) :: ·)
        else none
      | _ => none
    else none

/-- Result of `fn get` of the `State` impl: the source calls
`String::from_utf8(bytes).unwrap()`, so an invalid-UTF-8 key does not
return `None` but aborts the call; `panic` embeds that abort. -/
inductive GetResult (α : Type) where
  | panic
  | ok (r : Option (Value α))
  deriving DecidableEq, Repr

/-- Embeds `fn get` of the `State` impl in `src/state/default.rs`: decode
the key bytes as UTF-8 (panicking on failure, per the unchecked `unwrap`),
look the key up and filter out an expired entry. -/
def stGet {α : Type} (now : Nat) (s : Storage α) (keyBytes : List Nat) :
    GetResult α :=
  match utf8Decode keyBytes with
  | none => GetResult.panic
  | some cps =>
      GetResult.ok
        (match getVal (String.mk (cps.map Char.ofNat)) s with
         | some v => if isExpired now v then none else some v
         | none => none)

/-! ### Diff (`fn diff`, via `im::HashMap::difference_with`) -/

/-- Embeds the conflict closure passed to `difference_with` in `fn diff`:
equal timestamps drop the key, otherwise the entry with the smaller `ts`
is kept. -/
def tsConflict {α : Type} (l r : Value α) : Option (Value α) :=
  if l.ts = r.ts then none else some (if l.ts < r.ts then l else r)

/-- Embeds `im::HashMap::difference_with self other f` (a symmetric
difference): keys present in exactly one map are kept as-is, keys present
in both are resolved through `f` with `none` dropping the key. -/
def diffWith {α : Type} (f : Value α → Value α → Option (Value α))
    (a b : Storage α) : Storage α :=
  a.filterMap (fun kv =>
    match getVal kv.1 b with
    | some r => (f kv.2 r).map (fun v => (kv.1, v))
    | none => some kv)
  ++ b.filter (fun kv => (getVal kv.1 a).isNone)

/-- Embeds `fn diff` of the `State` impl: the bytes of `other` are decoded
back into a map (the serde round-trip is modelled as the identity on maps)
and combined with the current storage through `difference_with` and
`tsConflict`. No expiry filter is applied. -/
def stDiff {α : Type} (a b : Storage α) : Storage α := diffWith tsConflict a b

/-! ### Ingest channel and the connection-server handlers -/

/-- Embeds `const MAX_SET_OPS`, the bound of the ingest channel. -/
def MAX_SET_OPS : Nat := 64000

/-- Embeds `std::sync::mpsc::SyncSender::send` on the bounded ingest
channel created in `init`: when the queue holds fewer than `MAX_SET_OPS`
pending payloads the message is appended and the call completes; on a full
queue `send` blocks until the consumer frees a slot, which `none` models
(the call has not completed, nothing is dropped). -/
def channelSend (q : List (List Nat)) (m : List Nat) :
    Option (List (List Nat)) :=
  if q.length < MAX_SET_OPS then some (q ++ [m]) else none

/-- Embeds `fn set` of the `State` impl: serialize the value to bytes
(always succeeds for the byte payloads the connection layer passes), send
them down the ingest channel, and return `Ok(())` unconditionally once the
send completes. `none` propagates a blocked send. -/
def stateSetCall (q : List (List Nat)) (body : List Nat) :
    Option (List (List Nat) × Except String Unit) :=
  (channelSend q body).map (fun q1 => (q1, Except.ok ()))

/-- HTTP responses produced by the connection server through the
`Responses` helpers: `ok` is a 200 carrying a serialized map body,
`noContent` a bodyless 204, `unprocessable` a 422. -/
inductive HResponse (α : Type) where
  | ok (body : Storage α)
  | noContent
  | unprocessable
  deriving DecidableEq, Repr

/-- Numeric status code of a response (`StatusCode` in
`src/helpers/http/responses.rs`). -/
def statusCode {α : Type} : HResponse α → Nat
  | HResponse.ok _ => 200
  | HResponse.noContent => 204
  | HResponse.unprocessable => 422

/-- Embeds `set_handler` of `src/connection/default.rs`: the PUT body is
passed to `state.set`; `Ok` yields 204 and any error 422. -/
def setHandler {α : Type} (q : List (List Nat)) (body : List Nat) :
    Option (List (List Nat) × HResponse α) :=
  (stateSetCall q body).map (fun p =>
    (p.1,
     match p.2 with
     | Except.ok _ => HResponse.noContent
     | Except.error _ => HResponse.unprocessable))

/-- Last `/`-delimited segment of a request path
(`req.uri().path().split('/').last()`; `String.splitOn` never returns an
empty list, matching Rust's `split`, so the default is never used). -/
def lastSegment (path : String) : String := (path.splitOn "/").getLastD ""

/-- Embeds `get_handler` of `src/connection/default.rs`: serve the full
`get_root` body unless the trailing path segment is nonempty and equal to
the local `state.version()`, in which case respond 204. -/
def getHandler {α : Type} (path : String) (st : St α) : HResponse α :=
  if lastSegment path = "" ∨ lastSegment path ≠ (stVersion st).1 then
    HResponse.ok ((get_root st).getD [])
  else
    HResponse.noContent

/-! ### Derived/spec-side notions used to state the claims -/

/-- Key/timestamp projection of a storage; the version hash reads exactly
this data. -/
def keyTs {α : Type} (s : Storage α) : List (String × Nat) :=
  s.map (fun kv => (kv.1, kv.2.ts))

/-- Subsequence of unexpired entries (the spec's notion of the visible
root). -/
def nonExpired {α : Type} (now : Nat) (s : Storage α) : Storage α :=
  s.filter (fun kv => !isExpired now kv.2)

/-- Sequence of `set` calls offering `offers` one by one under key `k`,
each drained by the ingest worker (FIFO), starting from storage `s`. -/
def applyOffers {α : Type} (d : Option Nat) (now : Nat) (k : String)
    (offers : List (Value α)) (s : Storage α) : Storage α :=
  offers.foldl (fun s v => (mergeSet d now s [(k, v)]).1) s

/-- Maximum of `t` and the timestamps in `offers`. -/
def maxTsFrom {α : Type} (t : Nat) (offers : List (Value α)) : Nat :=
  offers.foldl (fun a v => max a v.ts) t

/-- Maximum timestamp of a list of offers (0 when there are none). -/
def maxTs {α : Type} : List (Value α) → Nat
  | [] => 0
  | v :: vs => maxTsFrom v.ts vs

/-! ### Helper lemmas about storages -/

theorem withDefaultTtl_ts {α : Type} (d : Option Nat) (v : Value α) :
    (withDefaultTtl d v).ts = v.ts := by
  unfold withDefaultTtl; split <;> rfl

theorem withDefaultTtl_value {α : Type} (d : Option Nat) (v : Value α) :
    (withDefaultTtl d v).value = v.value := by
  unfold withDefaultTtl; split <;> rfl

theorem getVal_append {α : Type} (k : String) (xs ys : Storage α) :
    getVal k (xs ++ ys) =
      match getVal k xs with
      | some v => some v
      | none => getVal k ys := by
  induction xs with
  | nil => rfl
  | cons x xs ih =>
      obtain ⟨k0, v0⟩ := x
      by_cases h : k0 = k <;> simp [getVal, h, ih]

theorem getVal_replaceVal_self {α : Type} (k : String) (w : Value α)
    (s : Storage α) (h : (getVal k s).isSome) :
    getVal k (replaceVal k w s) = some w := by
  induction s with
  | nil => simp [getVal] at h
  | cons x xs ih =>
      obtain ⟨k0, v0⟩ := x
      by_cases hk : k0 = k
      · simp [getVal, replaceVal, hk]
      · simp [getVal, replaceVal, hk] at h ⊢
        exact ih h

theorem getVal_eq_none_of_not_mem {α : Type} (k : String) (s : Storage α)
    (h : k ∉ keys s) : getVal k s = none := by
  induction s with
  | nil => rfl
  | cons x xs ih =>
      obtain ⟨k0, v0⟩ := x
      simp [keys] at h
      have h1 : ¬ k0 = k := fun hh => h.1 hh.symm
      have h2 : k ∉ keys xs := by
        simp [keys]
        exact h.2
      simp [getVal, h1, ih h2]

theorem getVal_mem_of_nodup {α : Type} (s : Storage α)
    (h : (keys s).Nodup) (k : String) (v : Value α) (hm : (k, v) ∈ s) :
    getVal k s = some v := by
  induction s with
  | nil => simp at hm
  | cons x xs ih =>
      obtain ⟨k0, v0⟩ := x
      simp [keys] at h
      rcases List.mem_cons.mp hm with heq | htail
      · cases heq; simp [getVal]
      · have hk : k0 ≠ k := by
          intro hkk
          subst hkk
          exact h.1 v htail
        simp [getVal, hk]
        exact ih h.2 htail

theorem mergeSet_single {α : Type} (d : Option Nat) (now : Nat)
    (s : Storage α) (k : String) (v : Value α) :
    mergeSet d now s [(k, v)] = mergeEntry d now (s, false) (k, v) := rfl

theorem mergeEntry_storage_cases {α : Type} (d : Option Nat) (now : Nat)
    (s : Storage α) (b : Bool) (k : String) (v : Value α) :
    (mergeEntry d now (s, b) (k, v)).1 =
      if isExpired now v then s
      else
        match getVal k s with
        | some u =>
            if u.ts < (withDefaultTtl d v).ts
            then replaceVal k (withDefaultTtl d v) s else s
        | none => s ++ [(k, withDefaultTtl d v)] := by
  unfold mergeEntry
  split
  · rfl
  · cases hg : getVal k s with
    | none => simp [hg]
    | some u =>
        simp only [hg]
        split <;> rfl

theorem applyOffers_inv {α : Type} (d : Option Nat) (now : Nat) (k : String)
    (offers : List (Value α)) :
    ∀ (s : Storage α) (w : Value α),
      getVal k s = some w →
      (∀ v ∈ offers, isExpired now v = false) →
      ∃ w', getVal k (applyOffers d now k offers s) = some w' ∧
        w'.ts = maxTsFrom w.ts offers ∧
        ((w'.ts = w.ts ∧ w'.value = w.value) ∨
          ∃ v ∈ offers, w'.ts = v.ts ∧ w'.value = v.value) := by
  induction offers with
  | nil =>
      intro s w hw _
      exact ⟨w, hw, rfl, Or.inl ⟨rfl, rfl⟩⟩
  | cons v vs ih =>
      intro s w hw hexp
      have hv : isExpired now v = false := hexp v (by simp)
      have hexp2 : ∀ u ∈ vs, isExpired now u = false :=
        fun u hu => hexp u (by simp [hu])
      have hstep : applyOffers d now k (v :: vs) s
          = applyOffers d now k vs ((mergeSet d now s [(k, v)]).1) := rfl
      have hmax : maxTsFrom w.ts (v :: vs) = maxTsFrom (max w.ts v.ts) vs := rfl
      by_cases hlt : w.ts < v.ts
      · have hs1 : (mergeSet d now s [(k, v)]).1
            = replaceVal k (withDefaultTtl d v) s := by
          rw [mergeSet_single, mergeEntry_storage_cases]
          simp [hv, hw, withDefaultTtl_ts, hlt]
        have hw1 : getVal k ((mergeSet d now s [(k, v)]).1)
            = some (withDefaultTtl d v) := by
          rw [hs1]; exact getVal_replaceVal_self k _ s (by simp [hw])
        obtain ⟨w', hget, hts, hval⟩ := ih _ _ hw1 hexp2
        refine ⟨w', by rw [hstep]; exact hget, ?_, ?_⟩
        · rw [hmax, Nat.max_eq_right (Nat.le_of_lt hlt)]
          rw [hts, withDefaultTtl_ts]
        · rcases hval with ⟨hts0, hval0⟩ | ⟨u, hu, hts0, hval0⟩
          · exact Or.inr ⟨v, by simp,
              by rw [hts0, withDefaultTtl_ts], by rw [hval0, withDefaultTtl_value]⟩
          · exact Or.inr ⟨u, by simp [hu], hts0, hval0⟩
      · have hs1 : (mergeSet d now s [(k, v)]).1 = s := by
          rw [mergeSet_single, mergeEntry_storage_cases]
          simp [hv, hw, withDefaultTtl_ts, hlt]
        have hw1 : getVal k ((mergeSet d now s [(k, v)]).1) = some w := by
          rw [hs1]; exact hw
        obtain ⟨w', hget, hts, hval⟩ := ih _ _ hw1 hexp2
        refine ⟨w', by rw [hstep]; exact hget, ?_, ?_⟩
        · rw [hmax, Nat.max_eq_left (Nat.not_lt.mp hlt)]
          exact hts
        · rcases hval with h0 | ⟨u, hu, hts0, hval0⟩
          · exact Or.inl h0
          · exact Or.inr ⟨u, by simp [hu], hts0, hval0⟩

theorem applyOffers_lww_of_all_unexpired {α : Type} (d : Option Nat)
    (now : Nat) (k : String) (offers : List (Value α)) (s : Storage α)
    (hk : getVal k s = none) (hne : offers ≠ [])
    (hexp : ∀ v ∈ offers, isExpired now v = false) :
    ∃ w, getVal k (applyOffers d now k offers s) = some w ∧
      w.ts = maxTs offers ∧
      ∃ v ∈ offers, v.ts = maxTs offers ∧ w.value = v.value := by
  match offers, hne with
  | v0 :: vs, _ =>
    have hv0 : isExpired now v0 = false := hexp v0 (by simp)
    have hexp2 : ∀ u ∈ vs, isExpired now u = false :=
      fun u hu => hexp u (by simp [hu])
    have hs1 : (mergeSet d now s [(k, v0)]).1
        = s ++ [(k, withDefaultTtl d v0)] := by
      rw [mergeSet_single, mergeEntry_storage_cases]
      simp [hv0, hk]
    have hw1 : getVal k ((mergeSet d now s [(k, v0)]).1)
        = some (withDefaultTtl d v0) := by
      rw [hs1, getVal_append]
      simp [hk, getVal]
    obtain ⟨w', hget, hts, hval⟩ := applyOffers_inv d now k vs _ _ hw1 hexp2
    have htsmax : w'.ts = maxTs (v0 :: vs) := by
      rw [hts, withDefaultTtl_ts]; rfl
    refine ⟨w', hget, htsmax, ?_⟩
    rcases hval with ⟨hts0, hval0⟩ | ⟨u, hu, hts0, hval0⟩
    · exact ⟨v0, by simp,
        by rw [← withDefaultTtl_ts d v0, ← hts0, htsmax],
        by rw [hval0, withDefaultTtl_value]⟩
    · exact ⟨u, by simp [hu], by rw [← hts0, htsmax], hval0⟩

theorem mergeSet_noop_of_le {α : Type} (d : Option Nat) (now : Nat)
    (k : String) :
    ∀ (s1 : Storage α) (u v1 : Value α), getVal k s1 = some u →
      v1.ts ≤ u.ts → (mergeSet d now s1 [(k, v1)]).1 = s1 := by
  intro s1 u v1 hu hle
  rw [mergeSet_single, mergeEntry_storage_cases]
  by_cases hexp1 : isExpired now v1 = true
  · simp [hexp1]
  · simp only [Bool.not_eq_true] at hexp1
    simp [hexp1, hu, withDefaultTtl_ts, Nat.not_lt.mpr hle]

theorem applyOffers_skip_expired {α : Type} (d : Option Nat) (now : Nat)
    (k : String) :
    ∀ (offers : List (Value α)) (s : Storage α),
      applyOffers d now k offers s
        = applyOffers d now k (offers.filter (fun v => !isExpired now v)) s := by
  intro offers
  induction offers with
  | nil => intro s; rfl
  | cons v vs ih =>
      intro s
      have hstep : applyOffers d now k (v :: vs) s
          = applyOffers d now k vs ((mergeSet d now s [(k, v)]).1) := rfl
      by_cases hv : isExpired now v = true
      · have hskip : (mergeSet d now s [(k, v)]).1 = s := by
          rw [mergeSet_single, mergeEntry_storage_cases, if_pos hv]
        rw [hstep, hskip, List.filter_cons]
        simp only [hv, Bool.not_true, Bool.false_eq_true, if_false]
        exact ih s
      · simp only [Bool.not_eq_true] at hv
        rw [hstep, List.filter_cons]
        simp only [hv, Bool.not_false, if_true]
        exact ih ((mergeSet d now s [(k, v)]).1)

/-- C1 (amended): last-writer-wins over the offers that were not already
expired when merged. For any sequence of `set` calls on key `k` drained in
FIFO order by the ingest worker — expired and unexpired offers freely
mixed — `Default::set` skips the offers whose TTL had already elapsed at
merge time, and the stored entry's `ts` is the maximum `ts` among the
remaining (unexpired) offers, its value arriving with such an offer
carrying that maximum; moreover any incoming entry whose `ts` is at most
the stored `ts` leaves the storage unchanged. (The unamended claim takes
the maximum over all offers ever made, but an already-expired offer's
larger `ts` never becomes the stored `ts`.) -/
theorem c1_lww_max_of_unexpired_offers {α : Type} (d : Option Nat)
    (now : Nat) (k : String) (offers : List (Value α)) (s : Storage α)
    (hk : getVal k s = none)
    (hne : offers.filter (fun v => !isExpired now v) ≠ []) :
    (∃ w, getVal k (applyOffers d now k offers s) = some w ∧
       w.ts = maxTs (offers.filter (fun v => !isExpired now v)) ∧
       ∃ v ∈ offers.filter (fun v => !isExpired now v),
         v.ts = maxTs (offers.filter (fun v => !isExpired now v)) ∧
         w.value = v.value) ∧
    (∀ (s1 : Storage α) (u v1 : Value α), getVal k s1 = some u →
       v1.ts ≤ u.ts → (mergeSet d now s1 [(k, v1)]).1 = s1) := by
  refine ⟨?_, mergeSet_noop_of_le d now k⟩
  rw [applyOffers_skip_expired]
  refine applyOffers_lww_of_all_unexpired d now k _ s hk hne ?_
  intro v hv
  rw [List.mem_filter] at hv
  have hv2 := hv.2
  simp only [Bool.not_eq_eq_eq_not, Bool.not_true] at hv2
  exact hv2

/-- Offer sequence refuting C1 as stated: the second offer carries the
larger timestamp 500 but is already expired when merged (now = 1000), so
`Default::set` skips it. -/
def c1offers : List (Value String) :=
  [⟨"garfield", 0, none⟩, ⟨"nyan", 500, some 10⟩]

/-- C1 counterexample: after the queue drains the stored `ts` under key
`"k"` is 0, not the maximum timestamp 500 ever offered through `set`,
refuting the claim as stated. -/
theorem c1_counterexample :
    maxTs c1offers = 500 ∧
    (getVal "k" (applyOffers none 1000 "k" c1offers [])).map Value.ts
      = some 0 ∧
    (getVal "k" (applyOffers none 1000 "k" c1offers [])).map Value.ts
      ≠ some (maxTs c1offers) := by
  refine ⟨by decide, by decide, by decide⟩

/-- Offers used by the C1 witness: a mixed sequence whose middle offer
carries the largest timestamp but is already expired at now = 1000 and is
skipped, so the stored maximum is taken over the two unexpired offers. -/
def c1wOffers : List (Value String) :=
  [⟨"a", 1, none⟩, ⟨"huge", 500, some 10⟩, ⟨"b", 3, none⟩]

/-- Witness instantiating `c1_lww_max_of_unexpired_offers` on a concrete
mixed offer sequence. -/
theorem c1_witness :
    getVal "k" ([] : Storage String) = none ∧
    c1wOffers.filter (fun v => !isExpired 1000 v) ≠ [] ∧
    ((∃ w, getVal "k" (applyOffers none 1000 "k" c1wOffers []) = some w ∧
        w.ts = maxTs (c1wOffers.filter (fun v => !isExpired 1000 v)) ∧
        ∃ v ∈ c1wOffers.filter (fun v => !isExpired 1000 v),
          v.ts = maxTs (c1wOffers.filter (fun v => !isExpired 1000 v)) ∧
          w.value = v.value) ∧
      (∀ (s1 : Storage String) (u v1 : Value String),
        getVal "k" s1 = some u → v1.ts ≤ u.ts →
        (mergeSet none 1000 s1 [("k", v1)]).1 = s1)) :=
  ⟨rfl, by decide,
   c1_lww_max_of_unexpired_offers none 1000 "k" c1wOffers [] rfl (by decide)⟩

/-- Expired entry lingering in backing storage for the C2 counterexample
(its TTL of 1 ms elapsed long before now = 1000). -/
def c2entry : Value String := ⟨"garfield", 0, some 1⟩

/-- State whose storage still holds the expired entry. -/
def c2st : St String :=
  { storage := [("cat", c2entry)], version := "", isDirty := true, ttl := none }

/-- C2 counterexample: the entry under `"cat"` is expired at now = 1000,
yet `get_root` returns it (the source clones the storage with no expiry
filter) and `diff` against an empty map emits it as well, refuting the
claim that expired entries never appear in `get_root` or `diff` output. -/
theorem c2_counterexample :
    isExpired 1000 c2entry = true ∧
    get_root c2st = some [("cat", c2entry)] ∧
    getVal "cat" (stDiff c2st.storage []) = some c2entry := by
  refine ⟨by decide, rfl, by decide⟩

/-- C2 (amended): `get` never returns an expired entry, but `get_root`
returns the backing storage verbatim (lingering expired entries included)
and `diff` likewise passes entries through without an expiry filter — a
key absent from the other side is emitted as-is even when expired. -/
theorem c2_get_filters_root_diff_do_not {α : Type} (now : Nat) :
    (∀ (s : Storage α) (bytes : List Nat) (v : Value α),
       stGet now s bytes = GetResult.ok (some v) → isExpired now v = false) ∧
    (∀ st : St α, get_root st = some st.storage) ∧
    (∀ a : Storage α, stDiff a [] = a) := by
  refine ⟨?_, fun _ => rfl, ?_⟩
  · intro s bytes v h
    unfold stGet at h
    cases hd : utf8Decode bytes with
    | none => rw [hd] at h; exact absurd h (by simp)
    | some cps =>
        rw [hd] at h
        have h2 : GetResult.ok (α := α)
            (match getVal (String.mk (cps.map Char.ofNat)) s with
             | some u => if isExpired now u then none else some u
             | none => none) = GetResult.ok (some v) := h
        cases hg : getVal (String.mk (cps.map Char.ofNat)) s with
        | none => rw [hg] at h2; simp at h2
        | some u =>
            rw [hg] at h2
            by_cases he : isExpired now u = true
            · simp [he] at h2
            · simp only [Bool.not_eq_true] at he
              simp [he] at h2
              subst h2; exact he
  · intro a
    show diffWith tsConflict a [] = a
    unfold diffWith
    have h1 : a.filterMap (fun kv =>
        match getVal kv.1 ([] : Storage α) with
        | some r => (tsConflict kv.2 r).map (fun v => (kv.1, v))
        | none => some kv) = a := by
      induction a with
      | nil => rfl
      | cons x xs ih =>
          rw [List.filterMap_cons]
          simp [getVal, ih]
    simp [h1, getVal]

/-- Storage used by the C2 witness. -/
def c2wStore : Storage String := [("e", ⟨"payload", 0, none⟩)]

/-- Witness instantiating `c2_get_filters_root_diff_do_not`: a concrete
`get` that succeeds returns an unexpired entry. -/
theorem c2_witness :
    stGet 10 c2wStore [101] = GetResult.ok (some ⟨"payload", 0, none⟩) ∧
    isExpired 10 (⟨"payload", 0, none⟩ : Value String) = false :=
  ⟨by decide,
   (c2_get_filters_root_diff_do_not 10).1 c2wStore [101]
     ⟨"payload", 0, none⟩ (by decide)⟩

theorem xorBits_succ (fuel a b : Nat) :
    xorBits (fuel + 1) a b = (a + b) % 2 + 2 * xorBits fuel (a / 2) (b / 2) :=
  rfl

theorem xorBits_right_comm (fuel : Nat) :
    ∀ z a b, xorBits fuel (xorBits fuel z a) b
      = xorBits fuel (xorBits fuel z b) a := by
  induction fuel with
  | zero => intro z a b; rfl
  | succ fuel ih =>
      intro z a b
      rw [xorBits_succ fuel z a, xorBits_succ fuel z b,
        xorBits_succ, xorBits_succ]
      have h2 : ((z + a) % 2 + 2 * xorBits fuel (z / 2) (a / 2)) / 2
          = xorBits fuel (z / 2) (a / 2) := by omega
      have h3 : ((z + b) % 2 + 2 * xorBits fuel (z / 2) (b / 2)) / 2
          = xorBits fuel (z / 2) (b / 2) := by omega
      have h1 : ((z + a) % 2 + 2 * xorBits fuel (z / 2) (a / 2) + b) % 2
          = ((z + b) % 2 + 2 * xorBits fuel (z / 2) (b / 2) + a) % 2 := by
        omega
      rw [h1, h2, h3, ih (z / 2) (a / 2) (b / 2)]

theorem xor64_right_comm (z a b : Nat) :
    xor64 (xor64 z a) b = xor64 (xor64 z b) a :=
  xorBits_right_comm 64 z a b

theorem hash_eq_foldl_keyTs {α : Type} (s : Storage α) :
    hash s = (keyTs s).foldl (fun h p => xor64 h (hashKV p.1 p.2)) 0 := by
  unfold hash keyTs
  rw [List.foldl_map]

theorem hash_perm {α β : Type} (s1 : Storage α) (s2 : Storage β)
    (h : (keyTs s1).Perm (keyTs s2)) : hash s1 = hash s2 := by
  rw [hash_eq_foldl_keyTs, hash_eq_foldl_keyTs]
  refine h.foldl_eq' ?_ 0
  intro x _ y _ z
  exact xor64_right_comm z (hashKV x.1 x.2) (hashKV y.1 y.2)

/-- Storage with a lingering expired entry for the C3 counterexample. -/
def c3sA : Storage String := [("j", ⟨"x", 0, none⟩), ("k", ⟨"y", 0, some 1⟩)]

/-- Storage with the same unexpired content but no lingering entry. -/
def c3sB : Storage String := [("j", ⟨"x", 0, none⟩)]

/-- C3 counterexample: at now = 1000 both storages have the same `(key,
ts)` set of non-expired entries, yet `version()` (recomputed on a dirty
state) differs, because `fn hash` folds over all stored entries including
the lingering expired one. This refutes the claim that the version is a
function of exactly the non-expired entries. -/
theorem c3_counterexample :
    keyTs (nonExpired 1000 c3sA) = keyTs (nonExpired 1000 c3sB) ∧
    isExpired 1000 (⟨"y", 0, some 1⟩ : Value String) = true ∧
    (stVersion { storage := c3sA, version := "", isDirty := true,
                 ttl := none }).1
      ≠ (stVersion { storage := c3sB, version := "", isDirty := true,
                     ttl := none }).1 := by
  refine ⟨by decide, by decide, by decide⟩

/-- C3 (amended): the version string is a function of the `(key, ts)`
pairs of all stored entries — lingering expired entries included — not of
the non-expired ones only. On dirty states, two storages whose `(key, ts)`
projections are permutations of each other (in particular, two stores
holding the same set of entries in any order, whatever their values or
TTLs) yield the same hash and the same recomputed version string: the XOR
fold of `XxHash64(key, ts)` rendered in decimal is order-independent. -/
theorem c3_version_function_of_keyts {α β : Type} (s1 : Storage α)
    (s2 : Storage β) (t1 t2 : Option Nat) (c1 c2 : String)
    (h : (keyTs s1).Perm (keyTs s2)) :
    hash s1 = hash s2 ∧
    (stVersion { storage := s1, version := c1, isDirty := true,
                 ttl := t1 }).1
      = (stVersion { storage := s2, version := c2, isDirty := true,
                     ttl := t2 }).1 ∧
    (stVersion { storage := s1, version := c1, isDirty := true,
                 ttl := t1 }).1 = toString (hash s1) := by
  have hh := hash_perm s1 s2 h
  refine ⟨hh, ?_, rfl⟩
  show toString (hash s1) = toString (hash s2)
  rw [hh]

/-- First storage of the C3 witness (values and TTLs differ from the
second; only the `(key, ts)` pairs agree, up to order). -/
def c3w1 : Storage String := [("a", ⟨"1", 5, none⟩), ("b", ⟨"2", 7, some 3⟩)]

/-- Second storage of the C3 witness. -/
def c3w2 : Storage String := [("b", ⟨"9", 7, none⟩), ("a", ⟨"8", 5, some 1⟩)]

/-- Witness instantiating `c3_version_function_of_keyts` on two concrete
permuted storages. -/
theorem c3_witness :
    (keyTs c3w1).Perm (keyTs c3w2) ∧ hash c3w1 = hash c3w2 :=
  ⟨by decide,
   (c3_version_function_of_keyts c3w1 c3w2 none none "" "" (by decide)).1⟩

/-- Ingest queue holding `MAX_SET_OPS` pending payloads. -/
def c4full : List (List Nat) := List.replicate MAX_SET_OPS []

/-- C4 counterexample: with the ingest channel full, the `set` call's send
does not complete — `SyncSender::send` blocks until the consumer frees a
slot — so `set` neither drops the update nor returns at all while the
channel stays full, refuting the claim that it returns success after
silently dropping the write. -/
theorem c4_counterexample :
    stateSetCall c4full [0] = none ∧
    ∀ r, stateSetCall c4full [0] ≠ some r := by
  have hlen : c4full.length = MAX_SET_OPS := List.length_replicate MAX_SET_OPS []
  have hmain : stateSetCall c4full [0] = none := by
    unfold stateSetCall channelSend
    rw [hlen]
    simp
  exact ⟨hmain, fun r hr => by rw [hmain] at hr; exact Option.noConfusion hr⟩

/-- C4 (amended): `set` is lossless but blocking on overflow. While the
bounded ingest channel (capacity 64,000) is full the call blocks — the
send does not complete and nothing is dropped; as soon as capacity is
available the payload is enqueued at the back and the call returns
success. Whenever the call completes it reports success. -/
theorem c4_set_blocks_when_full (q : List (List Nat)) (body : List Nat) :
    (q.length < MAX_SET_OPS →
       stateSetCall q body = some (q ++ [body], Except.ok ())) ∧
    (MAX_SET_OPS ≤ q.length → stateSetCall q body = none) ∧
    (∀ q1 r, stateSetCall q body = some (q1, r) →
       r = Except.ok () ∧ q1 = q ++ [body]) := by
  refine ⟨?_, ?_, ?_⟩
  · intro h
    unfold stateSetCall channelSend
    rw [if_pos h]
    rfl
  · intro h
    unfold stateSetCall channelSend
    rw [if_neg (Nat.not_lt.mpr h)]
    rfl
  · intro q1 r h
    unfold stateSetCall channelSend at h
    by_cases hq : q.length < MAX_SET_OPS
    · rw [if_pos hq] at h
      simp at h
      exact ⟨h.2.symm, h.1.symm⟩
    · rw [if_neg hq] at h
      simp at h

/-- Witness instantiating `c4_set_blocks_when_full` on an empty queue. -/
theorem c4_witness :
    ([] : List (List Nat)).length < MAX_SET_OPS ∧
    stateSetCall [] [7] = some ([[7]], Except.ok ()) :=
  ⟨by decide, (c4_set_blocks_when_full [] [7]).1 (by decide)⟩

/-- Mutating payload of the C5 failing input. -/
def c5map : List (String × Value String) := [("cat", ⟨"garfield", 0, none⟩)]

/-- Payload whose only entry is already expired at now = 1000 (ttl 1 ms,
ts 0), so the merge loop's `continue` skips it and the local `is_dirty`
stays `false`; a plain empty payload `{}` behaves the same way. -/
def c5expiredMap : List (String × Value String) := [("x", ⟨"gone", 0, some 1⟩)]

/-- State after merging `c5map` into a fresh store. -/
def c5st1 : St String := stSet 1000 (St.start none) c5map

/-- State after then merging the all-expired payload. -/
def c5st2 : St String := stSet 1000 c5st1 c5expiredMap

/-- C5 (code bug): the first merge marks the state dirty, and re-merging
the identical map keeps it dirty (the `or_insert` argument block runs
eagerly and sets the local flag for every non-expired entry), as the claim
demands. But a later merge whose payload contains no non-expired entry —
here a single already-expired entry, likewise an empty map — leaves its
local `is_dirty` at `false`, and the unconditional store
`*self.is_dirty.write().unwrap() = is_dirty` then overwrites the pending
`true`. That later non-mutating merge makes `version()` skip the
recomputation and return the stale cached string (the initial empty
string), which does not correspond to the store's current content —
exactly what the claim rules out, and what the source's own documentation
of `version` ("set ... on every state change") promises; an OR into the
flag is what the lazy-dirty design needs. -/
theorem c5_stale_version_after_expired_only_merge :
    c5st1.isDirty = true ∧
    (stSet 1000 c5st1 c5map).isDirty = true ∧
    c5st2.storage = c5st1.storage ∧
    c5st2.isDirty = false ∧
    (stVersion c5st2).1 = "" ∧
    (stVersion c5st2).1 ≠ toString (hash c5st2.storage) := by
  refine ⟨by decide, by decide, by decide, by decide, by decide, by decide⟩

/-- Malformed JSON body bytes (the ASCII of `not json`). -/
def c6badBody : List Nat := [110, 111, 116, 32, 106, 115, 111, 110]

/-- C6 counterexample: a PUT with a malformed body gets 204, not the 422
the claim promises, because `Default::set` only enqueues the raw bytes and
returns `Ok` before any parsing happens. -/
theorem c6_counterexample :
    setHandler (α := String) [] c6badBody
      = some ([c6badBody], HResponse.noContent) ∧
    statusCode (HResponse.noContent (α := String)) = 204 ∧
    statusCode (HResponse.unprocessable (α := String)) = 422 ∧
    (HResponse.noContent (α := String)) ≠ HResponse.unprocessable := by
  refine ⟨by decide, rfl, rfl, by decide⟩

/-- C6 (amended): the connection server's PUT handler responds 204 for
every body, well-formed or not, whenever the ingest channel has room
(malformed payloads are discarded later by the async ingest worker, with
no reflection in the response); the 422 branch is unreachable because the
default state's `set` never returns an error, and on a full channel the
handler blocks instead of responding. -/
theorem c6_put_always_no_content {α : Type} (q : List (List Nat))
    (body : List Nat) (h : q.length < MAX_SET_OPS) :
    setHandler (α := α) q body = some (q ++ [body], HResponse.noContent) ∧
    ∀ (q1 : List (List Nat)) (r : HResponse α),
      setHandler (α := α) q body = some (q1, r) →
      r ≠ HResponse.unprocessable := by
  have hcall : stateSetCall q body = some (q ++ [body], Except.ok ()) := by
    unfold stateSetCall channelSend
    rw [if_pos h]
    rfl
  have hmain : setHandler (α := α) q body
      = some (q ++ [body], HResponse.noContent) := by
    unfold setHandler
    rw [hcall]
    rfl
  refine ⟨hmain, ?_⟩
  intro q1 r hr
  rw [hmain] at hr
  simp at hr
  rw [← hr.2]
  exact fun hcontra => HResponse.noConfusion hcontra

/-- Witness instantiating `c6_put_always_no_content` on an empty queue and
the malformed body. -/
theorem c6_witness :
    ([] : List (List Nat)).length < MAX_SET_OPS ∧
    setHandler (α := String) [] c6badBody
      = some ([c6badBody], HResponse.noContent) :=
  ⟨by decide, (c6_put_always_no_content [] c6badBody (by decide)).1⟩

theorem getVal_diffLeft_none {α : Type} (b : Storage α) (k : String) :
    ∀ a : Storage α, getVal k a = none →
      getVal k (a.filterMap (fun kv =>
        match getVal kv.1 b with
        | some r => (tsConflict kv.2 r).map (fun v => (kv.1, v))
        | none => some kv)) = none := by
  intro a
  induction a with
  | nil => intro _; rfl
  | cons x xs ih =>
      intro h
      obtain ⟨k0, v0⟩ := x
      by_cases hk : k0 = k
      · simp [getVal, hk] at h
      · have htail : getVal k xs = none := by simpa [getVal, hk] using h
        rw [List.filterMap_cons]
        cases hfb : getVal k0 b with
        | none => simp only [hfb]; simp [getVal, hk, ih htail]
        | some r =>
            cases hc : tsConflict v0 r with
            | none => simp only [hfb, hc]; simp [ih htail]
            | some v => simp only [hfb, hc]; simp [getVal, hk, ih htail]

theorem getVal_diffLeft {α : Type} (b : Storage α) (k : String) :
    ∀ a : Storage α, (keys a).Nodup →
      getVal k (a.filterMap (fun kv =>
        match getVal kv.1 b with
        | some r => (tsConflict kv.2 r).map (fun v => (kv.1, v))
        | none => some kv)) =
      match getVal k a with
      | some l =>
          match getVal k b with
          | some r => tsConflict l r
          | none => some l
      | none => none := by
  intro a
  induction a with
  | nil => intro _; rfl
  | cons x xs ih =>
      intro hnd
      obtain ⟨k0, v0⟩ := x
      simp [keys] at hnd
      rw [List.filterMap_cons]
      by_cases hk : k0 = k
      · subst hk
        have hnotin : getVal k0 xs = none :=
          getVal_eq_none_of_not_mem k0 xs (by simpa [keys] using hnd.1)
        cases hfb : getVal k0 b with
        | none => simp [getVal, hfb]
        | some r =>
            cases hc : tsConflict v0 r with
            | none =>
                simp [getVal, hfb, hc, getVal_diffLeft_none b k0 xs hnotin]
            | some v => simp [getVal, hfb, hc]
      · have htail := ih hnd.2
        have hskip : getVal k ((k0, v0) :: xs) = getVal k xs := by
          simp [getVal, hk]
        cases hfb : getVal k0 b with
        | none => simp only [hfb]; simp [getVal, hk, htail, hskip]
        | some r =>
            cases hc : tsConflict v0 r with
            | none => simp only [hfb, hc]; simp [htail, hskip]
            | some v => simp only [hfb, hc]; simp [getVal, hk, htail, hskip]

theorem getVal_diffRight {α : Type} (a : Storage α) (k : String) :
    ∀ b : Storage α,
      getVal k (b.filter (fun kv => (getVal kv.1 a).isNone)) =
      match getVal k a with
      | none => getVal k b
      | some _ => none := by
  intro b
  induction b with
  | nil => cases h : getVal k a <;> rfl
  | cons x xs ih =>
      obtain ⟨k0, v0⟩ := x
      by_cases hk : k0 = k
      · subst hk
        cases ha : getVal k0 a with
        | none => simp [List.filter_cons, ha, getVal]
        | some u => simp [List.filter_cons, ha, getVal, ih]
      · cases hp : getVal k0 a with
        | none =>
            cases hga : getVal k a with
            | none => simp_all [List.filter_cons, getVal, hk]
            | some u => simp_all [List.filter_cons, getVal, hk]
        | some u =>
            cases hga : getVal k a with
            | none => simp_all [List.filter_cons, getVal, hk]
            | some w => simp_all [List.filter_cons, getVal, hk]

/-- C7: diff semantics per key. For `Nodup` keys (always true of the
`im::HashMap` the source uses), a key present in both maps with equal `ts`
is omitted from `diff`, a key present in both with unequal `ts` yields the
entry with the smaller `ts`, and a key present in only one side is passed
through as-is. -/
theorem c7_diff_semantics {α : Type} (a b : Storage α)
    (ha : (keys a).Nodup) (k : String) :
    getVal k (stDiff a b) =
      match getVal k a, getVal k b with
      | some l, some r =>
          if l.ts = r.ts then none else some (if l.ts < r.ts then l else r)
      | some l, none => some l
      | none, some r => some r
      | none, none => none := by
  show getVal k (diffWith tsConflict a b) = _
  unfold diffWith
  rw [getVal_append, getVal_diffLeft b k a ha, getVal_diffRight a k b]
  cases hga : getVal k a with
  | none => cases hgb : getVal k b <;> rfl
  | some l =>
      cases hgb : getVal k b with
      | none => rfl
      | some r =>
          show (match tsConflict l r with
                | some v => some v
                | none => none) = _
          unfold tsConflict
          by_cases hts : l.ts = r.ts
          · simp [hts]
          · simp [hts]

/-- First storage of the C7 witness. -/
def c7a : Storage String := [("x", ⟨"mine", 1, none⟩), ("y", ⟨"only", 9, none⟩)]

/-- Second storage of the C7 witness. -/
def c7b : Storage String := [("x", ⟨"theirs", 2, none⟩)]

/-- Witness instantiating `c7_diff_semantics`: the shared key `"x"` has
unequal timestamps, so diff returns the older entry. -/
theorem c7_witness :
    (keys c7a).Nodup ∧
    getVal "x" (stDiff c7a c7b) =
      match getVal "x" c7a, getVal "x" c7b with
      | some l, some r =>
          if l.ts = r.ts then none else some (if l.ts < r.ts then l else r)
      | some l, none => some l
      | none, some r => some r
      | none, none => none :=
  ⟨by decide, c7_diff_semantics c7a c7b (by decide) "x"⟩

/-- C8: version-gated pull. For every GET request path, if the last
`/`-delimited segment is nonempty and equal to the local `state.version()`
the connection server responds 204 with no body; otherwise — the segment
differs or is empty/missing — it responds 200 carrying the full
`state.get_root()` body. -/
theorem c8_version_gated_pull {α : Type} (path : String) (st : St α) :
    getHandler path st =
      if lastSegment path ≠ "" ∧ lastSegment path = (stVersion st).1
      then HResponse.noContent
      else HResponse.ok ((get_root st).getD []) := by
  unfold getHandler
  by_cases h1 : lastSegment path = ""
  · rw [if_pos (Or.inl h1), if_neg (by intro hc; exact hc.1 h1)]
  · by_cases h2 : lastSegment path = (stVersion st).1
    · rw [if_neg (by intro hc; rcases hc with hc | hc; exact h1 hc; exact hc h2),
        if_pos ⟨h1, h2⟩]
    · rw [if_pos (Or.inr h2), if_neg (by intro hc; exact h2 hc.2)]

/-- C9: self-diff is empty. Diffing a state against the (decoded) bytes of
its own `get_root()` yields the empty map: every key is present on both
sides with equal `ts`, so `tsConflict` drops it, and the second
`difference_with` pass keeps only keys absent from the left map, of which
there are none. -/
theorem c9_self_diff_empty {α : Type} (st : St α)
    (h : (keys st.storage).Nodup) :
    stDiff st.storage ((get_root st).getD []) = [] := by
  show stDiff st.storage st.storage = []
  unfold stDiff diffWith
  have h1 : st.storage.filterMap (fun kv =>
      match getVal kv.1 st.storage with
      | some r => (tsConflict kv.2 r).map (fun v => (kv.1, v))
      | none => some kv) = [] := by
    rw [List.filterMap_eq_nil_iff]
    intro kv hm
    rw [getVal_mem_of_nodup st.storage h kv.1 kv.2 hm]
    simp [tsConflict]
  have h2 : st.storage.filter
      (fun kv => (getVal kv.1 st.storage).isNone) = [] := by
    rw [List.filter_eq_nil_iff]
    intro kv hm
    rw [getVal_mem_of_nodup st.storage h kv.1 kv.2 hm]
    simp
  rw [h1, h2]
  rfl

/-- State used by the C9 witness. -/
def c9st : St String :=
  { storage := [("a", ⟨"1", 3, none⟩), ("b", ⟨"2", 5, some 9⟩)],
    version := "", isDirty := true, ttl := none }

/-- Witness instantiating `c9_self_diff_empty` on a concrete two-entry
state. -/
theorem c9_witness :
    (keys c9st.storage).Nodup ∧
    stDiff c9st.storage ((get_root c9st).getD []) = [] :=
  ⟨by decide, c9_self_diff_empty c9st (by decide)⟩

/-- C10: `fn get` decodes the key bytes with
`String::from_utf8(..).unwrap()`. Whenever the key bytes are valid UTF-8
the call is total and returns an `ok` result, and on the invalid byte
`0xFF` it panics instead of returning `None`, exactly as the claim
describes. -/
theorem c10_get_panics_on_invalid_utf8 {α : Type} (now : Nat)
    (s : Storage α) :
    (∀ bytes : List Nat, (utf8Decode bytes).isSome = true →
       ∃ r, stGet now s bytes = GetResult.ok r) ∧
    utf8Decode [255] = none ∧
    stGet now s [255] = GetResult.panic := by
  refine ⟨?_, rfl, rfl⟩
  intro bytes hv
  unfold stGet
  cases hd : utf8Decode bytes with
  | none => rw [hd] at hv; simp at hv
  | some cps => exact ⟨_, rfl⟩

/-- Witness instantiating `c10_get_panics_on_invalid_utf8` on the ASCII
key `h`. -/
theorem c10_witness :
    (utf8Decode [104]).isSome = true ∧
    ∃ r, stGet 0 ([] : Storage String) [104] = GetResult.ok r :=
  ⟨by decide, (c10_get_panics_on_invalid_utf8 0 []).1 [104] (by decide)⟩

end C19
